import Mathlib

/-!
Shallow embedding of the inline-IDL micro-syntax parser and renderer
(`parseInlineIDL`, `idlStringToHtml`) of the source file, together with
theorems settling the specification claims.

Modelling conventions:
* JavaScript strings are `String` / `List Char`.
* The four regular expressions of the source are translated into explicit
  matching functions that reproduce their exact anchoring, greediness and
  leftmost-match semantics (documented at each definition).
* The DOM queries of `findDfnType` and `findMarchingVarType` are lookups
  over lists of `(textContent, data-type)` records carried in a context
  value; a `null` context node is an absent record list.
* Thrown exceptions are `Except.error` values.
* A segment `parent` pointer is the index, in the returned left-to-right
  chain, of the segment to the left (the spec sanctions an index-based
  back-reference), or `none` for the JS `null`.
-/

namespace InlineIdl

/-- JS regex `\w` word character: `[A-Za-z0-9_]`. -/
def isWordChar (c : Char) : Bool :=
  c.isAlpha || c.isDigit || c == '_'

/-- JS line terminators, the characters the regex metacharacter `.` does
not match: LF, CR, U+2028, U+2029. -/
def isLineTerminator (c : Char) : Bool :=
  c == '\n' || c == '\r' || c.toNat == 0x2028 || c.toNat == 0x2029

/-- JS regex `\s` whitespace class: ASCII whitespace plus the Unicode
space separators, NBSP, BOM and the line separators. -/
def isJsWhitespace (c : Char) : Bool :=
  c == '\t' || c == '\n' || c.toNat == 0xB || c.toNat == 0xC || c == '\r' || c == ' ' ||
  c.toNat == 0xA0 || c.toNat == 0x1680 || (0x2000 ≤ c.toNat && c.toNat ≤ 0x200A) ||
  c.toNat == 0x2028 || c.toNat == 0x2029 || c.toNat == 0x202F || c.toNat == 0x205F ||
  c.toNat == 0x3000 || c.toNat == 0xFEFF

/-- JS `str.split(sep)` for a one-character separator string: splits at
every occurrence of `sep`, keeping empty pieces; the empty string yields
one empty piece, matching `"".split(".") === [""]`. -/
def splitOnChar (sep : Char) : List Char → List (List Char)
  | [] => [[]]
  | c :: rest =>
    if c == sep then [] :: splitOnChar sep rest
    else
      match splitOnChar sep rest with
      | [] => [[c]]
      | p :: ps => (c :: p) :: ps

/-- One attempted match of `methodRegex = /(\w+)\((.*)\)$/` at start
position `i` of `s`.  At a given start, `(\w+)` is greedy and must be
followed by a literal `(`, so it matches exactly the maximal word-char
run at `i` and the next character must be `(`; then `(.*)` is greedy,
cannot cross a line terminator, and must be followed by `)` at the very
end of the string (`$`), so the argument capture is everything strictly
between that `(` and a final `)`, provided it contains no line
terminator. -/
def methodMatchAt (s : List Char) (i : Nat) : Option (List Char × List Char) :=
  let tail := s.drop i
  let run := tail.takeWhile isWordChar
  if run.isEmpty then none
  else
    match tail.drop run.length with
    | '(' :: rest2 =>
      if rest2.getLast? == some ')' && (rest2.dropLast).all (fun c => !isLineTerminator c) then
        some (run, rest2.dropLast)
      else none
    | _ => none

/-- `methodRegex = /(\w+)\((.*)\)$/` is unanchored at the left, so the JS
engine returns the match at the leftmost start position that succeeds.
The result carries the captures: the identifier and the raw argument
text. -/
def methodMatch (s : List Char) : Option (List Char × List Char) :=
  (List.range (s.length + 1)).findSome? (methodMatchAt s)

/-- The body `\[\[(\w+)\]\]$` of `slotRegex` matched against the
remainder `r` of the string: literal `[[`, a nonempty word-char run,
then `]]` ending the string. -/
def slotBodyTest (r : List Char) : Bool :=
  match r with
  | '[' :: '[' :: rest =>
    let w := rest.takeWhile isWordChar
    !w.isEmpty && rest.drop w.length == [']', ']']
  | _ => false

/-- `slotRegex = /$\[\[(\w+)\]\]$/`.  The pattern BEGINS with `$`, an
end-of-input anchor, so a match at start position `i` requires the
remainder `s.drop i` to be empty (the anchor) and simultaneously to
start with `[[...` (the body) — which is impossible; the regex matches
no string at all.  The definition keeps this structure literally. -/
def slotTest (s : List Char) : Bool :=
  (List.range (s.length + 1)).any fun i =>
    (s.drop i).isEmpty && slotBodyTest (s.drop i)

/-- Capture extraction for `slotRegex` (the `[, identifier]` destructuring
of `value.match(slotRegex)`); like `slotTest` it can never produce a
value, for the same reason. -/
def slotExtract (s : List Char) : Option (List Char) :=
  (List.range (s.length + 1)).findSome? fun i =>
    let r := s.drop i
    if r.isEmpty && slotBodyTest r then
      match r with
      | '[' :: '[' :: rest => some (rest.takeWhile isWordChar)
      | _ => none
    else none

/-- `enumRegex = /^(\w+)\["([\w ]+)"\]$/`, anchored on the whole token:
a nonempty word-char identifier, then `["`, then a nonempty run of word
chars and spaces, then `"]` ending the token.  Both quantifiers are
greedy and followed by a character outside their class, so the captures
are the maximal runs. -/
def enumMatch (s : List Char) : Option (List Char × List Char) :=
  let ident := s.takeWhile isWordChar
  if ident.isEmpty then none
  else
    match s.drop ident.length with
    | '[' :: '"' :: rest2 =>
      let v := rest2.takeWhile fun c => isWordChar c || c == ' '
      if v.isEmpty then none
      else
        match rest2.drop v.length with
        | ['"', ']'] => some (ident, v)
        | _ => none
    | _ => none

/-- `attributeRegex = /^(\w+)$/`: the whole token is a nonempty run of
word characters (and the capture is the whole token). -/
def attributeTest (s : List Char) : Bool :=
  !s.isEmpty && s.all isWordChar

/-- Worker for `allArgs.split(/,\s*/)`: scanning left to right, each
separator match consumes a `,` and then greedily the following
whitespace run (`skipping` is true while inside that run; a `,` ends it,
because `\s` does not contain `,`). -/
def splitCommaWsGo : List Char → Bool → List Char → List (List Char)
  | [], _, acc => [acc.reverse]
  | c :: rest, skipping, acc =>
    if c == ',' then acc.reverse :: splitCommaWsGo rest true []
    else if skipping && isJsWhitespace c then splitCommaWsGo rest true acc
    else splitCommaWsGo rest false (c :: acc)

/-- JS `allArgs.split(/,\s*/)`: split on each comma together with the
whitespace run that follows it. -/
def splitCommaWs (s : List Char) : List (List Char) :=
  splitCommaWsGo s false []

/-- The data of one parsed segment: the `type` tag of the source object
together with its payload fields (`identifier`, `args`, `enumValue`).
The source tag strings are `"base"`, `"attribute"`, `"method"`,
`"internal-slot"`, `"enum-value"`; `attr` stands for `"attribute"`
(`attribute` is a Lean keyword). -/
inductive SegData where
  | base (identifier : String)
  | attr (identifier : String)
  | method (identifier : String) (args : List String)
  | internalSlot (identifier : String)
  | enumValue (identifier : String) (enumVal : String)
deriving DecidableEq, Repr

/-- The `type` field string of the source segment object. -/
def SegData.typeName : SegData → String
  | .base _ => "base"
  | .attr _ => "attribute"
  | .method _ _ => "method"
  | .internalSlot _ => "internal-slot"
  | .enumValue _ _ => "enum-value"

/-- Does this segment have `type === "base"`. -/
def SegData.isBase : SegData → Bool
  | .base _ => true
  | _ => false

/-- A parsed segment as returned by `parseInlineIDL`: its data and its
`parent` back-reference, modelled as the index of the parent segment in
the returned left-to-right chain (`none` for the JS `null`). -/
structure Segment where
  data : SegData
  parent : Option Nat
deriving DecidableEq, Repr

/-- The `SyntaxError` thrown by `parseInlineIDL`: it carries the
offending token text and its 1-based position (the interpolations of the
message string). -/
structure ParseErr where
  token : String
  position : Nat
deriving DecidableEq, Repr

/-- The body of the `while (tokens.length)` loop: classify one popped
token `value`, where `tokensRemain` is `tokens.length !== 0` after the
pop.  The matchers are tried in the fixed source order; `some` is a
`results.push`, `none` is the fall-through to `throw`. -/
def classifyToken (value : List Char) (tokensRemain : Bool) : Option SegData :=
  match methodMatch value with
  | some (identifier, allArgs) =>
    let args := ((splitCommaWs allArgs).filter fun a => !a.isEmpty).map String.mk
    some (.method (String.mk identifier) args)
  | none =>
    if slotTest value then
      (slotExtract value).map fun identifier => SegData.internalSlot (String.mk identifier)
    else
      match enumMatch value with
      | some (identifier, v) => some (.enumValue (String.mk identifier) (String.mk v))
      | none =>
        if attributeTest value && tokensRemain then
          some (.attr (String.mk value))
        else if attributeTest value && !tokensRemain then
          some (.base (String.mk value))
        else
          none

/-- The `while (tokens.length)` loop over the tokens in pop order
(rightmost first).  `count` is the source counter: it starts at the
token count, is decremented at each pop, and on failure the error
position is `++count`, i.e. the value `count` held at entry to the
iteration. -/
def goTokens : List (List Char) → Nat → Except ParseErr (List SegData)
  | [], _ => .ok []
  | v :: rest, count =>
    match classifyToken v (!rest.isEmpty) with
    | some d =>
      match goTokens rest (count - 1) with
      | .ok ds => .ok (d :: ds)
      | .error e => .error e
    | none => .error ⟨String.mk v, count⟩

/-- The `results.forEach((item, i, list) => item.parent = list[i + 1] || null)`
linking pass, on the rightmost-first list of length `n`: element `i`
gets parent `list[i + 1]` when it exists.  With index-based parents the
object `list[i + 1]` sits, after the final `reverse`, at left-to-right
index `n - 1 - (i + 1) = n - 2 - i`. -/
def linkAux (n : Nat) : Nat → List SegData → List Segment
  | _, [] => []
  | i, d :: rest =>
    { data := d, parent := if i + 1 < n then some (n - 2 - i) else none } :: linkAux n (i + 1) rest

/-- Linking followed by `results.reverse()`: parent pointers are set on
the rightmost-first list, then the list is returned in left-to-right
textual order. -/
def link (results : List SegData) : List Segment :=
  (linkAux results.length 0 results).reverse

/-- The token list `str.split(".")`. -/
def tokensOf (str : String) : List (List Char) :=
  splitOnChar '.' str.data

/-- `parseInlineIDL(str)`: split on `.`, classify the tokens from the
rightmost to the leftmost, link parents, and return the segments in
left-to-right order; a token no matcher accepts raises a `SyntaxError`
carrying the token text and its 1-based left-counted position. -/
def parseInlineIDL (str : String) : Except ParseErr (List Segment) :=
  match goTokens (tokensOf str).reverse (tokensOf str).length with
  | .error e => .error e
  | .ok results => .ok (link results)

/-- A `dfn[data-type]` or `var[data-type]` element, reduced to the two
fields the lookups read: its `textContent` and its `data-type`. -/
structure DocRecord where
  text : String
  dtype : String
deriving DecidableEq, Repr

/-- The document context consumed by rendering: the document's
`dfn[data-type]` elements in document order, and, when the context node
is not `null`, the `var[data-type]` elements scoped to its nearest
enclosing section, in document order. -/
structure Ctx where
  dfns : List DocRecord
  contextVars : Option (List DocRecord)

/-- `findDfnType(varName)`: first `dfn[data-type]` whose trimmed text
equals `varName`, returning its `data-type`, else `null`. -/
def findDfnType (ctx : Ctx) (varName : String) : Option String :=
  (ctx.dfns.find? fun r => r.text.trim == varName).map (·.dtype)

/-- `findMarchingVarType(varName, contextNode)`: `null` when the context
node is `null`, else the `data-type` of the first scoped
`var[data-type]` whose trimmed text equals `varName`. -/
def findMarchingVarType (ctx : Ctx) (varName : String) : Option String :=
  match ctx.contextVars with
  | none => none
  | some vars => (vars.find? fun r => r.text.trim == varName).map (·.dtype)

/-- Interpolation of a possibly `null` value into the markup string. -/
def attrVal : Option String → String
  | some s => s
  | none => "null"

/-- `renderBase`: look the identifier up as a contextual variable; render
a `var` element when found, else a plain cross-reference; afterwards
`details.idlType` is the found type or, as fallback, the identifier
itself.  Returns the markup and the final `idlType`. -/
def renderBase (ctx : Ctx) (identifier : String) : String × Option String :=
  let idlType := findMarchingVarType ctx identifier
  let html :=
    match idlType with
    | some t => "<var data-type=\"" ++ t ++ "\">" ++ identifier ++ "</var>"
    | none => "<a data-xref-type=\"_IDL_\">" ++ identifier ++ "</a>"
  let finalType :=
    match idlType with
    | some t => some t
    | none => some identifier
  (html, finalType)

/-- `renderInternalSlot`: `details.idlType = findDfnType("[[id]]")` (which
may stay `null`), and the `.[[ ... ]]` markup.  Returns the markup and
the assigned `idlType`. -/
def renderInternalSlot (ctx : Ctx) (identifier : String) : String × Option String :=
  let idlType := findDfnType ctx ("[[" ++ identifier ++ "]]")
  let lt := "[[" ++ identifier ++ "]]"
  let html :=
    ".[[<code><a class=\"respec-idl-xref\" data-xref-type=\"internal-slot\" data-type=\""
      ++ attrVal idlType ++ "\" data-lt=\"" ++ lt ++ "\">" ++ identifier ++ "</a></code>]]"
  (html, idlType)

/-- `renderAttribute`: reads `parent ? parent.idlType : null` and renders
the dotted cross-reference (the stray `</code>` of the source template is
kept). -/
def renderAttribute (parentIdlType : Option String) (identifier : String) : String :=
  ".<a class=\"respec-idl-xref\" data-xref-type=\"attribute\" data-link-for=\""
    ++ attrVal parentIdlType ++ "\">" ++ identifier ++ "</code></a>"

/-- The argument markup of `renderMethod`: each argument resolved as a
contextual variable and wrapped in a `var` element, comma-joined. -/
def methodArgsText (ctx : Ctx) (args : List String) : String :=
  String.intercalate ", " (args.map fun arg =>
    "<var data-type=\"" ++ attrVal (findMarchingVarType ctx arg) ++ "\">" ++ arg ++ "</var>")

/-- The markup of `renderMethod` once `parent.idlType` has been read. -/
def renderMethodHtml (ctx : Ctx) (parentIdlType : Option String) (identifier : String)
    (args : List String) : String :=
  ".<a class=\"respec-idl-xref\" data-xref-type=\"method\" data-link-for=\""
    ++ attrVal parentIdlType ++ "\">" ++ identifier ++ "</a>(" ++ methodArgsText ctx args ++ ")"

/-- `renderEnum`: the quoted enum value as a cross-reference linked for
the segment's own identifier. -/
def renderEnum (identifier : String) (enumVal : String) : String :=
  "\"<a class=\"respec-idl-xref\" data-xref-type=\"enum-value\" data-link-for=\""
    ++ identifier ++ "\">" ++ enumVal ++ "</a>\""

/-- Errors out of `idlStringToHtml`: a propagated parse `SyntaxError`, or
the `TypeError` of `renderMethod` destructuring `idlType` off a `null`
parent. -/
inductive IdlError where
  | parseFailure (e : ParseErr)
  | typeError
deriving DecidableEq, Repr

/-- Render one segment at chain index `j`.  `st` holds the mutable
`idlType` fields of the chain's segments (index-aligned, `none` for
unset/`null`).  `renderBase` and `renderInternalSlot` write `st` at `j`;
`renderAttribute` reads the parent entry behind a null-guard; method
rendering destructures `parent.idlType` WITHOUT a guard, so a `null`
parent is a thrown `TypeError`. -/
def renderOne (ctx : Ctx) (st : List (Option String)) (j : Nat) (seg : Segment) :
    Except IdlError (String × List (Option String)) :=
  match seg.data with
  | .base identifier =>
    let r := renderBase ctx identifier
    .ok (r.1, st.set j r.2)
  | .attr identifier =>
    let parentIdlType :=
      match seg.parent with
      | none => none
      | some p => st.getD p none
    .ok (renderAttribute parentIdlType identifier, st)
  | .internalSlot identifier =>
    let r := renderInternalSlot ctx identifier
    .ok (r.1, st.set j r.2)
  | .method identifier args =>
    match seg.parent with
    | none => .error .typeError
    | some p => .ok (renderMethodHtml ctx (st.getD p none) identifier args, st)
  | .enumValue identifier v => .ok (renderEnum identifier v, st)

/-- The `for (const details of results)` loop of `idlStringToHtml`,
collecting one markup fragment per segment while threading the mutated
`idlType` state. -/
def renderGo (ctx : Ctx) : List Segment → Nat → List (Option String) → Except IdlError (List String)
  | [], _, _ => .ok []
  | seg :: rest, j, st =>
    match renderOne ctx st j seg with
    | .error e => .error e
    | .ok r =>
      match renderGo ctx rest (j + 1) r.2 with
      | .error e => .error e
      | .ok htmls => .ok (r.1 :: htmls)

/-- `idlStringToHtml(str, contextNode)`: parse, then render each segment
in left-to-right order; the output fragment is the list of per-segment
markup strings (hyperHTML concatenates them). -/
def idlStringToHtml (str : String) (ctx : Ctx) : Except IdlError (List String) :=
  match parseInlineIDL str with
  | .error e => .error (.parseFailure e)
  | .ok results => renderGo ctx results 0 (results.map fun _ => none)

/-- One step along a `parent` pointer: the parent index of the segment at
index `j` of the chain, `none` when out of range or parentless. -/
def stepParent (chain : List Segment) (j : Nat) : Option Nat :=
  match chain.get? j with
  | none => none
  | some seg => seg.parent

/-- `k` steps along `parent` pointers starting from index `j`. -/
def followN (chain : List Segment) (j : Nat) : Nat → Option Nat
  | 0 => some j
  | k + 1 =>
    match followN chain j k with
    | none => none
    | some i => stepParent chain i

/-- A token that none of the matchers accepts.  The attribute and base
branches share `attributeRegex` and their guards on the remaining-token
count are complementary, so jointly they fire exactly when
`attributeTest` holds; hence acceptance is independent of the position
of the token. -/
def tokenMatchesNone (v : List Char) : Bool :=
  (methodMatch v).isNone && !slotTest v && (enumMatch v).isNone && !attributeTest v

deriving instance DecidableEq for Except

/-! Helper lemmas about the matchers. -/

/-- The internal-slot pattern matches no string: the leading `$` anchor
demands an empty remainder, the body a nonempty one. -/
theorem slotTest_eq_false (s : List Char) : slotTest s = false := by
  unfold slotTest
  rw [List.any_eq_false]
  intro i _
  rcases h : s.drop i with _ | ⟨c, rest⟩ <;> simp [h, slotBodyTest]

/-- A token consisting only of word characters cannot match the method
pattern (it contains no parenthesis). -/
theorem methodMatch_of_all_word (v : List Char) (hw : v.all isWordChar = true) :
    methodMatch v = none := by
  unfold methodMatch
  rw [List.findSome?_eq_none]
  intro i _
  have hw2 : ∀ c ∈ v.drop i, isWordChar c = true := by
    intro c hc
    exact (List.all_eq_true.mp hw) c ((List.drop_sublist i v).subset hc)
  have ht : (v.drop i).takeWhile isWordChar = v.drop i :=
    List.takeWhile_eq_self_iff.mpr hw2
  simp only [methodMatchAt, ht, List.drop_length]
  split <;> rfl

/-- A token consisting only of word characters cannot match the enum
pattern (it contains no bracket). -/
theorem enumMatch_of_all_word (v : List Char) (hw : v.all isWordChar = true) :
    enumMatch v = none := by
  have ht : v.takeWhile isWordChar = v :=
    List.takeWhile_eq_self_iff.mpr (List.all_eq_true.mp hw)
  simp only [enumMatch, ht, List.drop_length]
  split <;> rfl

/-- A bare word token is pushed as an attribute segment when tokens
remain and as the base segment when none remain. -/
theorem classifyToken_of_attributeTest (v : List Char) (hw : attributeTest v = true) :
    classifyToken v true = some (.attr (String.mk v)) ∧
      classifyToken v false = some (.base (String.mk v)) := by
  have hall : v.all isWordChar = true := by
    unfold attributeTest at hw
    rw [Bool.and_eq_true] at hw
    exact hw.2
  have hm := methodMatch_of_all_word v hall
  have he := enumMatch_of_all_word v hall
  constructor <;> simp [classifyToken, hm, he, hw, slotTest_eq_false]

/-- The loop body falls through to the `throw` exactly on a token none of
the matchers accepts, independently of the remaining-token flag. -/
theorem classifyToken_eq_none_iff (v : List Char) (b : Bool) :
    classifyToken v b = none ↔ tokenMatchesNone v = true := by
  unfold classifyToken tokenMatchesNone
  rw [slotTest_eq_false]
  cases hm : methodMatch v with
  | some p => obtain ⟨mi, ma⟩ := p; simp
  | none =>
    cases he : enumMatch v with
    | some p => obtain ⟨ei, ev⟩ := p; simp
    | none =>
      cases ha : attributeTest v <;> cases b <;> simp [ha]

/-- A token classified while tokens remain is never the base segment. -/
theorem classifyToken_true_not_base (v : List Char) (d : SegData)
    (h : classifyToken v true = some d) : d.isBase = false := by
  unfold classifyToken at h
  rw [slotTest_eq_false] at h
  cases hm : methodMatch v with
  | some p =>
    obtain ⟨mi, ma⟩ := p
    rw [hm] at h
    simp at h
    rw [← h]
    rfl
  | none =>
    rw [hm] at h
    cases he : enumMatch v with
    | some p =>
      obtain ⟨ei, ev⟩ := p
      rw [he] at h
      simp at h
      rw [← h]
      rfl
    | none =>
      rw [he] at h
      cases ha : attributeTest v <;> rw [ha] at h <;> simp at h
      rw [← h]
      rfl

/-! Helper lemmas about the parse loop and the linking pass. -/

/-- A successful loop run produces one segment per token. -/
theorem goTokens_ok_length (rev : List (List Char)) :
    ∀ c res, goTokens rev c = .ok res → res.length = rev.length := by
  induction rev with
  | nil =>
    intro c res h
    injection h with h
    rw [← h]
    rfl
  | cons v rest ih =>
    intro c res h
    unfold goTokens at h
    cases hc : classifyToken v (!rest.isEmpty) with
    | none => rw [hc] at h; simp at h
    | some d =>
      rw [hc] at h
      cases hg : goTokens rest (c - 1) with
      | error e => rw [hg] at h; simp at h
      | ok ds =>
        rw [hg] at h
        injection h with h
        rw [← h]
        simp [ih (c - 1) ds hg]

/-- Each entry of a successful loop result is the classification of the
token at the same position of the pop-order list; the remaining-token
flag at position `k` says whether a later token exists. -/
theorem goTokens_ok_get (rev : List (List Char)) :
    ∀ c res, goTokens rev c = .ok res →
      ∀ k v d, rev.get? k = some v → res.get? k = some d →
        classifyToken v (decide (k + 1 < rev.length)) = some d := by
  induction rev with
  | nil => intro c res h k v d hv hd; simp at hv
  | cons v0 rest ih =>
    intro c res h k v d hv hd
    unfold goTokens at h
    cases hc : classifyToken v0 (!rest.isEmpty) with
    | none => rw [hc] at h; simp at h
    | some d0 =>
      rw [hc] at h
      cases hg : goTokens rest (c - 1) with
      | error e => rw [hg] at h; simp at h
      | ok ds =>
        rw [hg] at h
        injection h with h
        subst h
        cases k with
        | zero =>
          rw [List.get?_cons_zero] at hv hd
          injection hv with hv
          injection hd with hd
          subst hv
          subst hd
          have hflag : decide (0 + 1 < (v0 :: rest).length) = !rest.isEmpty := by
            cases rest <;> simp
          rw [hflag]
          exact hc
        | succ k =>
          rw [List.get?_cons_succ] at hv hd
          have hstep := ih (c - 1) ds hg k v d hv hd
          have hflag : decide (k + 1 + 1 < (v0 :: rest).length) = decide (k + 1 < rest.length) := by
            simp [Nat.succ_lt_succ_iff]
          rw [hflag]
          exact hstep

/-- A failing loop run reports a token of the pop-order list, with the
counter value held when that token was popped, and that token is
accepted by no matcher. -/
theorem goTokens_error_spec (rev : List (List Char)) :
    ∀ c e, goTokens rev c = .error e →
      ∃ k, k < rev.length ∧ rev.get? k = some e.token.data ∧
        e.position = c - k ∧ tokenMatchesNone e.token.data = true := by
  induction rev with
  | nil => intro c e h; simp [goTokens] at h
  | cons v rest ih =>
    intro c e h
    unfold goTokens at h
    cases hc : classifyToken v (!rest.isEmpty) with
    | none =>
      rw [hc] at h
      injection h with h
      subst h
      refine ⟨0, by simp, ?_, rfl, ?_⟩
      · rw [List.get?_cons_zero]
      · exact (classifyToken_eq_none_iff v (!rest.isEmpty)).mp hc
    | some d =>
      rw [hc] at h
      cases hg : goTokens rest (c - 1) with
      | ok ds => rw [hg] at h; simp at h
      | error e2 =>
        rw [hg] at h
        injection h with h
        subst h
        obtain ⟨k, hk, hv, hp, hm⟩ := ih (c - 1) e2 hg
        refine ⟨k + 1, by simpa using Nat.succ_lt_succ hk, ?_, by omega, hm⟩
        rw [List.get?_cons_succ]
        exact hv

/-- The loop fails exactly when some token of the pop-order list is
accepted by no matcher. -/
theorem goTokens_error_iff (rev : List (List Char)) :
    ∀ c, (∃ e, goTokens rev c = .error e) ↔ ∃ v ∈ rev, tokenMatchesNone v = true := by
  induction rev with
  | nil =>
    intro c
    constructor
    · rintro ⟨e, h⟩; simp [goTokens] at h
    · rintro ⟨v, hv, _⟩; simp at hv
  | cons v rest ih =>
    intro c
    cases hc : classifyToken v (!rest.isEmpty) with
    | none =>
      have hm := (classifyToken_eq_none_iff v (!rest.isEmpty)).mp hc
      constructor
      · intro _; exact ⟨v, List.mem_cons_self v rest, hm⟩
      · intro _; exact ⟨⟨String.mk v, c⟩, by unfold goTokens; rw [hc]⟩
    | some d =>
      have hm : tokenMatchesNone v = false := by
        cases hb : tokenMatchesNone v with
        | false => rfl
        | true =>
          have hnone := (classifyToken_eq_none_iff v (!rest.isEmpty)).mpr hb
          rw [hnone] at hc
          exact Option.noConfusion hc
      constructor
      · rintro ⟨e, he⟩
        unfold goTokens at he
        rw [hc] at he
        cases hg : goTokens rest (c - 1) with
        | ok ds => rw [hg] at he; simp at he
        | error e2 =>
          obtain ⟨u, hu, hum⟩ := (ih (c - 1)).mp ⟨e2, hg⟩
          exact ⟨u, List.mem_cons_of_mem v hu, hum⟩
      · rintro ⟨u, hu, hum⟩
        rcases List.mem_cons.mp hu with rfl | hu2
        · rw [hum] at hm; cases hm
        · obtain ⟨e2, hg⟩ := (ih (c - 1)).mpr ⟨u, hu2, hum⟩
          exact ⟨e2, by unfold goTokens; rw [hc, hg]⟩

/-- Length of the linking pass output. -/
theorem linkAux_length (n : Nat) : ∀ i ds, (linkAux n i ds).length = ds.length := by
  intro i ds
  induction ds generalizing i with
  | nil => rfl
  | cons d rest ih => simp [linkAux, ih]

/-- Entrywise description of the linking pass on the rightmost-first
list. -/
theorem linkAux_get (n : Nat) :
    ∀ ds i k, (linkAux n i ds).get? k =
      (ds.get? k).map fun d =>
        ({ data := d, parent := if i + k + 1 < n then some (n - 2 - (i + k)) else none } : Segment) := by
  intro ds
  induction ds with
  | nil => intro i k; simp [linkAux]
  | cons d rest ih =>
    intro i k
    cases k with
    | zero => simp [linkAux]
    | succ k =>
      have h1 : i + 1 + k = i + (k + 1) := by omega
      simp only [linkAux, List.get?_cons_succ, ih (i + 1) k, h1]

/-- Entrywise description of `link`: the segment at left-to-right index
`j` carries the data classified at pop-order index `n - 1 - j` and a
parent pointer to index `j - 1` (none for the first segment). -/
theorem link_get_of_lt (results : List SegData) (j : Nat) (hj : j < results.length)
    (d : SegData) (hd : results.get? (results.length - 1 - j) = some d) :
    (link results).get? j =
      some ({ data := d, parent := if j = 0 then none else some (j - 1) } : Segment) := by
  unfold link
  rw [List.get?_reverse (by rw [linkAux_length]; exact hj), linkAux_length, linkAux_get, hd]
  simp only [Option.map_some']
  congr 1
  congr 1
  rcases Nat.eq_zero_or_pos j with hj0 | hj0
  · subst hj0
    have h1 : ¬ (0 + (results.length - 1 - 0) + 1 < results.length) := by omega
    rw [if_neg h1, if_pos rfl]
  · have h1 : 0 + (results.length - 1 - j) + 1 < results.length := by omega
    have h2 : j ≠ 0 := by omega
    rw [if_pos h1, if_neg h2]
    congr 1
    omega

/-- The central description of a successful parse: the chain has one
segment per token, the segment at index `j` is the classification of
token `j` with the remaining-token flag `0 < j`, and its parent pointer
is `j - 1` (none for the first segment). -/
theorem parse_ok_spec (str : String) (chain : List Segment)
    (h : parseInlineIDL str = .ok chain) :
    chain.length = (tokensOf str).length ∧
    ∀ j t s, (tokensOf str).get? j = some t → chain.get? j = some s →
      s.parent = (if j = 0 then none else some (j - 1)) ∧
      classifyToken t (decide (0 < j)) = some s.data := by
  unfold parseInlineIDL at h
  cases hg : goTokens (tokensOf str).reverse (tokensOf str).length with
  | error e => rw [hg] at h; simp at h
  | ok results =>
    rw [hg] at h
    injection h with h
    subst h
    have hlen := goTokens_ok_length _ _ _ hg
    rw [List.length_reverse] at hlen
    constructor
    · unfold link
      rw [List.length_reverse, linkAux_length]
      exact hlen
    · intro j t s htj hsj
      have hj : j < (tokensOf str).length := by
        rcases List.get?_eq_some.mp htj with ⟨hh, _⟩
        exact hh
      obtain ⟨d, hd⟩ : ∃ d, results.get? (results.length - 1 - j) = some d := by
        rw [List.get?_eq_get (by omega)]
        exact ⟨_, rfl⟩
      have hlink := link_get_of_lt results j (by omega) d hd
      rw [hlink] at hsj
      injection hsj with hsj
      subst hsj
      refine ⟨rfl, ?_⟩
      have hrevk : (tokensOf str).reverse.get? (results.length - 1 - j) = some t := by
        rw [List.get?_reverse (by omega)]
        have harith : (tokensOf str).length - 1 - (results.length - 1 - j) = j := by omega
        rw [harith]
        exact htj
      have hclass := goTokens_ok_get _ _ _ hg (results.length - 1 - j) t d hrevk hd
      have hflag : (decide (results.length - 1 - j + 1 < (tokensOf str).reverse.length)) =
          decide (0 < j) := by
        apply decide_eq_decide.mpr
        rw [List.length_reverse]
        omega
      rw [hflag] at hclass
      exact hclass

/-! Claim theorems. -/

/-- C1: the spec/claim says the internal-slot matcher accepts every token
of the exact form `[[name]]` and that `parse("Foo.[[bar]]")` yields
Base(`Foo`) then InternalSlot(`bar`).  The code disagrees: `slotRegex`
is `/$\[\[(\w+)\]\]$/`, whose LEADING `$` is an end-of-input anchor, so
it accepts no string at all, and `parse("Foo.[[bar]]")` throws a
`SyntaxError` for the token `[[bar]]` at position 2.  The code's own
comments and its `internal-slot` renderer make clear the pattern was
meant to start with `^`: this is a code bug. -/
theorem slotRegex_dead_internal_slot_rejected :
    (∀ s : List Char, slotTest s = false) ∧
    (∀ s : List Char, slotExtract s = none) ∧
    parseInlineIDL "Foo.[[bar]]" = .error ⟨"[[bar]]", 2⟩ := by
  refine ⟨slotTest_eq_false, ?_, rfl⟩
  intro s
  unfold slotExtract
  rw [List.findSome?_eq_none]
  intro i _
  rcases h : s.drop i with _ | ⟨c, rest⟩ <;> simp [h, slotBodyTest]

/-- C2 counterexample: `parse("baz()")` succeeds on a 1-token input but
returns a chain containing NO Base segment, refuting the claim that
every successful parse has exactly one Base segment. -/
theorem single_method_token_chain_has_no_base :
    parseInlineIDL "baz()" = .ok [⟨.method "baz" [], none⟩] ∧
    (([⟨.method "baz" [], none⟩] : List Segment).countP fun s => s.data.isBase) = 0 :=
  ⟨rfl, rfl⟩

/-- C2 (amended): for every input on which parse succeeds the chain has
exactly one segment per dot-separated token, and every Base segment —
there is at most one — is the first segment in left-to-right order. -/
theorem parse_ok_token_count_and_base_position (str : String) (chain : List Segment)
    (h : parseInlineIDL str = .ok chain) :
    chain.length = (tokensOf str).length ∧
    ∀ j s, chain.get? j = some s → s.data.isBase = true → j = 0 := by
  obtain ⟨hlen, hspec⟩ := parse_ok_spec str chain h
  refine ⟨hlen, ?_⟩
  intro j s hs hb
  by_contra hj0
  have hjpos : 0 < j := Nat.pos_of_ne_zero hj0
  rcases List.get?_eq_some.mp hs with ⟨hj, _⟩
  obtain ⟨t, ht⟩ : ∃ t, (tokensOf str).get? j = some t := by
    rw [List.get?_eq_get (by omega)]
    exact ⟨_, rfl⟩
  have hclass := (hspec j t s ht hs).2
  rw [decide_eq_true hjpos] at hclass
  have hnb := classifyToken_true_not_base t s.data hclass
  rw [hb] at hnb
  exact Bool.noConfusion hnb

/-- C2 witness: the amended claim instantiated at `"Foo.bar"`. -/
theorem parse_ok_token_count_and_base_position_witness :
    ([⟨.base "Foo", none⟩, ⟨.attr "bar", some 0⟩] : List Segment).length =
      (tokensOf "Foo.bar").length ∧
    ∀ j s, ([⟨.base "Foo", none⟩, ⟨.attr "bar", some 0⟩] : List Segment).get? j = some s →
      s.data.isBase = true → j = 0 :=
  parse_ok_token_count_and_base_position "Foo.bar"
    [⟨.base "Foo", none⟩, ⟨.attr "bar", some 0⟩] (by rfl)

/-- C3 counterexample: `parse("baz(x)")` succeeds and its only segment is
a non-Base segment with a null parent, refuting the claim that every
non-Base segment has a non-null parent. -/
theorem single_method_token_nonbase_null_parent :
    parseInlineIDL "baz(x)" = .ok [⟨.method "baz" ["x"], none⟩] ∧
    SegData.isBase (.method "baz" ["x"]) = false ∧
    (Segment.mk (.method "baz" ["x"]) none).parent = none :=
  ⟨rfl, rfl, rfl⟩

/-- C3 (amended): in every chain returned by parse, every non-FIRST
segment has a parent pointing to the segment immediately to its left,
the first segment has a null parent, and following parent links from the
segment at index `j` reaches index `j - k` after `k` steps — in
particular the first segment after exactly `j` steps, with no cycles. -/
theorem parse_ok_parent_chain_structure (str : String) (chain : List Segment)
    (h : parseInlineIDL str = .ok chain) :
    (∀ j s, chain.get? j = some s → s.parent = if j = 0 then none else some (j - 1)) ∧
    (∀ j, j < chain.length → ∀ k, k ≤ j → followN chain j k = some (j - k)) := by
  obtain ⟨hlen, hspec⟩ := parse_ok_spec str chain h
  have hparent : ∀ j s, chain.get? j = some s →
      s.parent = if j = 0 then none else some (j - 1) := by
    intro j s hs
    rcases List.get?_eq_some.mp hs with ⟨hj, _⟩
    obtain ⟨t, ht⟩ : ∃ t, (tokensOf str).get? j = some t := by
      rw [List.get?_eq_get (by omega)]
      exact ⟨_, rfl⟩
    exact (hspec j t s ht hs).1
  refine ⟨hparent, ?_⟩
  intro j hj k
  induction k with
  | zero => intro _; simp [followN]
  | succ k ih =>
    intro hk
    have hprev := ih (by omega)
    simp only [followN, hprev]
    obtain ⟨s, hs⟩ : ∃ s, chain.get? (j - k) = some s := by
      rw [List.get?_eq_get (by omega)]
      exact ⟨_, rfl⟩
    unfold stepParent
    rw [hs]
    show s.parent = some (j - (k + 1))
    rw [hparent _ _ hs, if_neg (by omega : ¬ (j - k = 0))]
    rfl

/-- C3 witness: the amended claim instantiated at `"Foo.bar.baz()"`. -/
theorem parse_ok_parent_chain_structure_witness :
    (∀ j s, ([⟨.base "Foo", none⟩, ⟨.attr "bar", some 0⟩, ⟨.method "baz" [], some 1⟩] :
        List Segment).get? j = some s →
      s.parent = if j = 0 then none else some (j - 1)) ∧
    (∀ j, j < ([⟨.base "Foo", none⟩, ⟨.attr "bar", some 0⟩, ⟨.method "baz" [], some 1⟩] :
        List Segment).length →
      ∀ k, k ≤ j →
        followN [⟨.base "Foo", none⟩, ⟨.attr "bar", some 0⟩, ⟨.method "baz" [], some 1⟩] j k =
          some (j - k)) :=
  parse_ok_parent_chain_structure "Foo.bar.baz()"
    [⟨.base "Foo", none⟩, ⟨.attr "bar", some 0⟩, ⟨.method "baz" [], some 1⟩] (by rfl)

/-- C4: parse throws exactly when some token matches no pattern; the
error carries the literal offending token text and its 1-based position
counted from the left of the original token sequence; in particular
`parse("")` fails on the empty token at position 1 and
`parse("Foo..bar")` on the empty token at position 2. -/
theorem parse_error_token_and_position :
    (∀ str e, parseInlineIDL str = .error e →
        1 ≤ e.position ∧ e.position ≤ (tokensOf str).length ∧
        (tokensOf str).get? (e.position - 1) = some e.token.data ∧
        tokenMatchesNone e.token.data = true) ∧
    (∀ str : String, (∃ e, parseInlineIDL str = .error e) ↔
        ∃ t ∈ tokensOf str, tokenMatchesNone t = true) ∧
    parseInlineIDL "" = .error ⟨"", 1⟩ ∧
    parseInlineIDL "Foo..bar" = .error ⟨"", 2⟩ := by
  refine ⟨?_, ?_, rfl, rfl⟩
  · intro str e h
    unfold parseInlineIDL at h
    cases hg : goTokens (tokensOf str).reverse (tokensOf str).length with
    | ok results => rw [hg] at h; simp at h
    | error e2 =>
      rw [hg] at h
      injection h with h
      subst h
      obtain ⟨k, hk, hvk, hp, hm⟩ := goTokens_error_spec _ _ _ hg
      rw [List.length_reverse] at hk
      refine ⟨by omega, by omega, ?_, hm⟩
      rw [List.get?_reverse hk] at hvk
      have harith : (tokensOf str).length - 1 - k = e2.position - 1 := by omega
      rw [harith] at hvk
      exact hvk
  · intro str
    have hiff := goTokens_error_iff (tokensOf str).reverse (tokensOf str).length
    constructor
    · rintro ⟨e, he⟩
      unfold parseInlineIDL at he
      cases hg : goTokens (tokensOf str).reverse (tokensOf str).length with
      | ok results => rw [hg] at he; simp at he
      | error e2 =>
        obtain ⟨t, htm, hmm⟩ := hiff.mp ⟨e2, hg⟩
        exact ⟨t, List.mem_reverse.mp htm, hmm⟩
    · rintro ⟨t, htm, hmm⟩
      obtain ⟨e, hg⟩ := hiff.mpr ⟨t, List.mem_reverse.mpr htm, hmm⟩
      exact ⟨e, by unfold parseInlineIDL; rw [hg]⟩

/-- C4 witness: the error description instantiated at `"Foo..bar"`. -/
theorem parse_error_token_and_position_witness :
    1 ≤ (2 : Nat) ∧ (2 : Nat) ≤ (tokensOf "Foo..bar").length ∧
    (tokensOf "Foo..bar").get? (2 - 1) = some ("" : String).data ∧
    tokenMatchesNone ("" : String).data = true :=
  parse_error_token_and_position.1 "Foo..bar" ⟨"", 2⟩ (by rfl)

/-- C5: a token matched as a method yields the argument list obtained by
splitting the text between the parentheses on `,` plus optional
whitespace and dropping empty strings; `"Foo.baz(arg1, arg2)"` parses to
Base(`Foo`) then Method(`baz`, args `["arg1","arg2"]`), and empty
parentheses yield an empty argument sequence. -/
theorem method_args_split_semantics :
    (∀ (v : List Char) (b : Bool) (mi ma : List Char), methodMatch v = some (mi, ma) →
        classifyToken v b = some (.method (String.mk mi)
          (((splitCommaWs ma).filter fun a => !a.isEmpty).map String.mk))) ∧
    parseInlineIDL "Foo.baz(arg1, arg2)" =
      .ok [⟨.base "Foo", none⟩, ⟨.method "baz" ["arg1", "arg2"], some 0⟩] ∧
    parseInlineIDL "Foo.baz()" = .ok [⟨.base "Foo", none⟩, ⟨.method "baz" [], some 0⟩] := by
  refine ⟨?_, rfl, rfl⟩
  intro v b mi ma h
  unfold classifyToken
  rw [h]

/-- C5 witness: the method-classification equation instantiated at the
token `baz(arg1, arg2)`. -/
theorem method_args_split_semantics_witness :
    classifyToken ("baz(arg1, arg2)" : String).data true = some (.method "baz" ["arg1", "arg2"]) := by
  have happ := method_args_split_semantics.1 ("baz(arg1, arg2)" : String).data true
    ("baz" : String).data ("arg1, arg2" : String).data (by rfl)
  rw [happ]
  rfl

/-- C6 counterexample: `parse("baz().x")` is a successful multi-token
parse whose last-processed (leftmost) token is classified Method, not
Base, refuting the claim that the last-processed token is always Base. -/
theorem leftmost_method_token_not_base :
    parseInlineIDL "baz().x" = .ok [⟨.method "baz" [], none⟩, ⟨.attr "x", some 0⟩] ∧
    SegData.isBase (.method "baz" []) = false :=
  ⟨rfl, rfl⟩

/-- C6 (amended): a BARE-WORD token is classified Attribute exactly when
unprocessed tokens remain and Base exactly when none remain; hence in a
successful parse whose leftmost token is a bare word, the first segment
is that token as Base. -/
theorem bare_word_attribute_base_classification :
    (∀ v : List Char, attributeTest v = true →
        classifyToken v true = some (.attr (String.mk v)) ∧
        classifyToken v false = some (.base (String.mk v))) ∧
    (∀ str chain t s, parseInlineIDL str = .ok chain →
        (tokensOf str).get? 0 = some t → chain.get? 0 = some s →
        attributeTest t = true →
        s = ⟨.base (String.mk t), none⟩) := by
  refine ⟨classifyToken_of_attributeTest, ?_⟩
  intro str chain t s h ht hs hattr
  obtain ⟨sd, sp⟩ := s
  obtain ⟨hlen, hspec⟩ := parse_ok_spec str chain h
  obtain ⟨hpar, hcl⟩ := hspec 0 t ⟨sd, sp⟩ ht hs
  rw [if_pos rfl] at hpar
  have hpar2 : sp = none := hpar
  have hcl2 : classifyToken t false = some sd := hcl
  rw [(classifyToken_of_attributeTest t hattr).2] at hcl2
  injection hcl2 with hcl2
  rw [← hcl2, hpar2]

/-- C6 witness: the amended claim instantiated at `"Foo.bar"`. -/
theorem bare_word_attribute_base_classification_witness :
    (⟨.base "Foo", none⟩ : Segment) = ⟨.base (String.mk ("Foo" : String).data), none⟩ :=
  bare_word_attribute_base_classification.2 "Foo.bar"
    [⟨.base "Foo", none⟩, ⟨.attr "bar", some 0⟩] ("Foo" : String).data
    ⟨.base "Foo", none⟩ (by rfl) (by rfl) (by rfl) (by rfl)

/-- C7 counterexample: the single-token input `Foo["enum value"]` parses
to a chain of length 1, refuting the claim that it yields two
segments. -/
theorem single_enum_token_segment_count :
    (parseInlineIDL "Foo[\"enum value\"]").map List.length = .ok 1 :=
  rfl

/-- C7 (amended): parsing the single-token input `Foo["enum value"]`
yields exactly one segment, an EnumValue with identifier `Foo` and enum
value `enum value`, whose parent is null; no Base segment is
produced. -/
theorem single_enum_token_parse_result :
    parseInlineIDL "Foo[\"enum value\"]" = .ok [⟨.enumValue "Foo" "enum value", none⟩] :=
  rfl

/-- C8: rendering is deterministic — with the two resolver lookups fixed
by the context value, two runs of `idlStringToHtml` on the same input
and context give the same output. -/
theorem idlStringToHtml_deterministic (str : String) (ctx : Ctx)
    (o₁ o₂ : Except IdlError (List String))
    (h₁ : idlStringToHtml str ctx = o₁) (h₂ : idlStringToHtml str ctx = o₂) : o₁ = o₂ := by
  rw [← h₁, ← h₂]

/-- C8 witness: determinism instantiated at `"Foo"` and the empty
context. -/
theorem idlStringToHtml_deterministic_witness :
    idlStringToHtml "Foo" ⟨[], none⟩ = idlStringToHtml "Foo" ⟨[], none⟩ :=
  idlStringToHtml_deterministic "Foo" ⟨[], none⟩
    (idlStringToHtml "Foo" ⟨[], none⟩) (idlStringToHtml "Foo" ⟨[], none⟩) rfl rfl

/-- C9: `parse("baz()")` succeeds with a single Method segment whose
parent is null — the method matcher, unlike the attribute matcher, does
not require unprocessed tokens to remain — and rendering that chain
fails with the `TypeError` of destructuring `idlType` off the null
parent in `renderMethod`, whatever the document context. -/
theorem single_method_token_render_type_error :
    parseInlineIDL "baz()" = .ok [⟨.method "baz" [], none⟩] ∧
    ∀ ctx : Ctx, idlStringToHtml "baz()" ctx = .error .typeError :=
  ⟨rfl, fun _ => rfl⟩

/-- C10: the method pattern is anchored only at the end of the token, so
the token `x]y(a, b)` (whose leading characters are not word characters)
is not a syntax error: it is classified as a Method with identifier `y`
and args `["a","b"]`, the prefix `x]` silently discarded. -/
theorem method_regex_unanchored_prefix_discarded :
    parseInlineIDL "x]y(a, b)" = .ok [⟨.method "y" ["a", "b"], none⟩] :=
  rfl

end InlineIdl
